import Mathlib

/-!
Verification development for the bibliography reconciler in `bib2dblp.py`.

The program has two core functions:

* `search_dblp_entry(title, key, max_retries=5, delay=2)` — a retry loop that
  queries the DBLP search endpoint once per attempt and, on a usable hit,
  fetches the raw BibTeX record; network behaviour per attempt is external.
* `update_bib_file(input_file, output_file)` — iterates the parsed source
  entries, calls the query function per entry, applies the key-preserving
  merge/fallback policy and accumulates an updated entry list plus a list of
  failed citation keys.

The shallow embedding below models a BibTeX entry as an ordered association
list of field name/value pairs (the insertion-ordered `dict` produced by
`bibtexparser`), the network as a function from attempt index to the observable
outcome of that attempt, and `bibtexparser.loads` (which the update loop calls
with no surrounding `try`) as a fallible external parser returning
`Except String (List BibEntry)`.  Logging (`print` plus `logging.*`) and the
`time.sleep` calls are recorded as an explicit event trace.
-/

set_option autoImplicit false

namespace Bib2Dblp

/-- A parsed BibTeX entry: the insertion-ordered field map produced by
`bibtexparser` (field name, field value).  The citation key lives in the
distinguished field `ID`. -/
abbrev BibEntry := List (String × String)

/-- `entry.get(k)` on the underlying Python dict: first binding of `k`, if any. -/
def getField (e : BibEntry) (k : String) : Option String :=
  (e.find? (fun p => p.1 == k)).map (fun p => p.2)

/-- `entry[k] = v` on the underlying Python dict: overwrite the binding in
place when the key is present, append it otherwise (insertion order). -/
def setField (e : BibEntry) (k v : String) : BibEntry :=
  if e.any (fun p => p.1 == k) then
    e.map (fun p => if p.1 == k then (k, v) else p)
  else
    e ++ [(k, v)]

/-- The opening curly brace character, `chr 123`. -/
def lbrace : Char := Char.ofNat 123

/-- The closing curly brace character, `chr 125`. -/
def rbrace : Char := Char.ofNat 125

/-- `title.replace(chr 123, "").replace(chr 125, "")`: drop every curly brace
from the string. -/
def stripBraces (s : String) : String :=
  ⟨s.data.filter (fun c => c != lbrace && c != rbrace)⟩

/-- The `title` local of the update loop:
`entry.get("title", "")` with both braces stripped. -/
def titleOf (e : BibEntry) : String :=
  stripBraces ((getField e "title").getD "")

/-- The `original_key` local of the update loop as a plain string
(`entry.get("ID")`, defaulted; only consulted on entries that pass the
validity check, where the field is present and non-empty). -/
def keyOf (e : BibEntry) : String :=
  (getField e "ID").getD ""

/-- Negation of the skip test `if not title or not original_key: continue`:
an entry is processed exactly when its brace-stripped title is a non-empty
string and its `ID` field is present and non-empty (Python truthiness). -/
def entryValid (e : BibEntry) : Bool :=
  !(titleOf e == "" || getField e "ID" == none || getField e "ID" == some "")

/-- Every event the program emits to its log sinks or to `time.sleep`,
tagged by the severity and message family of the source. -/
inductive LogEvent where
  /-- `logging.warning` for a non-200 search response; the recorded number is
  the 1-indexed attempt number printed in the message. -/
  | warningSearchFail (attempt : Nat) (key title : String)
  /-- `logging.info` when the search succeeded but returned zero hits. -/
  | infoNoResults (key title : String)
  /-- `logging.error` inside the `except` clause of an attempt. -/
  | errorAttempt (attempt : Nat) (key title : String)
  /-- `logging.error` after the retry loop exhausts `max_retries`. -/
  | errorAllFailed (max_retries : Int) (key title : String)
  /-- `time.sleep(delay)` between attempts of the retry loop. -/
  | sleepRetry (delay : Int)
  /-- `logging.info` before querying DBLP for one entry. -/
  | infoSearching (key title : String)
  /-- `logging.warning` when the fetched raw record parsed to zero entries. -/
  | warningNoParsed (key title : String)
  /-- `logging.info` when the original entry is kept (no raw record). -/
  | infoKeepingOriginal (key title : String)
  /-- `time.sleep(1)` between entries of the update loop. -/
  | sleepEntry
deriving DecidableEq, Repr

/-- The externally observable outcome of one iteration of the retry loop,
i.e. of one search request (and the dependent record fetch) against DBLP. -/
inductive AttemptOutcome where
  /-- `resp.status_code != 200` on the search request. -/
  | httpFail
  /-- An exception was raised inside the attempt's `try` block. -/
  | exn
  /-- HTTP 200 and the parsed JSON carries zero hits. -/
  | noHits
  /-- HTTP 200, at least one hit, but `hits[0].info` has no `url`. -/
  | hitNoUrl
  /-- A hit with a url, but the `.bib` fetch answered with a non-200 status. -/
  | fetchFail
  /-- A hit with a url and the `.bib` fetch answered 200 with this body. -/
  | fetchOk (body : String)
deriving DecidableEq, Repr

/-- The observable result of one call to `search_dblp_entry`: the returned
value, the emitted log/sleep trace, and how many loop iterations (search
requests) were made. -/
structure SearchRun where
  result : Option String
  log : List LogEvent
  attempts : Nat
deriving DecidableEq, Repr

/-- The `while attempt < max_retries` loop of `search_dblp_entry`, embedded
with explicit fuel: the loop runs while `attempt < max_retries`, so starting
from `attempt = 0` it has exactly `max_retries.toNat` iterations left, and
`fuel` maintains the invariant `fuel = (max_retries - attempt).toNat`.
`client i` is the outcome of the request(s) issued on iteration `i`. -/
def searchGo (client : Nat → AttemptOutcome) (key title : String)
    (max_retries delay : Int) : Nat → Nat → SearchRun
  | _, 0 =>
    -- loop exit: `All {max_retries} attempts failed`, return None
    ⟨none, [.errorAllFailed max_retries key title], 0⟩
  | attempt, fuel + 1 =>
    match client attempt with
    | .httpFail =>
      -- log warning, attempt += 1, sleep(delay), continue
      let r := searchGo client key title max_retries delay (attempt + 1) fuel
      ⟨r.result, .warningSearchFail (attempt + 1) key title :: .sleepRetry delay :: r.log,
        r.attempts + 1⟩
    | .exn =>
      -- except: log error, then attempt += 1, sleep(delay)
      let r := searchGo client key title max_retries delay (attempt + 1) fuel
      ⟨r.result, .errorAttempt (attempt + 1) key title :: .sleepRetry delay :: r.log,
        r.attempts + 1⟩
    | .noHits =>
      -- log info, return None immediately
      ⟨none, [.infoNoResults key title], 1⟩
    | .hitNoUrl =>
      -- fall out of the try block: attempt += 1, sleep(delay)
      let r := searchGo client key title max_retries delay (attempt + 1) fuel
      ⟨r.result, .sleepRetry delay :: r.log, r.attempts + 1⟩
    | .fetchFail =>
      -- fall out of the try block: attempt += 1, sleep(delay)
      let r := searchGo client key title max_retries delay (attempt + 1) fuel
      ⟨r.result, .sleepRetry delay :: r.log, r.attempts + 1⟩
    | .fetchOk body =>
      -- return bibtex_resp.text
      ⟨some body, [], 1⟩

/-- `search_dblp_entry(title, key, max_retries, delay)` over an abstract
network `client`.  The Python defaults are `max_retries=5`, `delay=2`. -/
def search_dblp_entry (client : Nat → AttemptOutcome) (title key : String)
    (max_retries delay : Int) : SearchRun :=
  searchGo client key title max_retries delay 0 max_retries.toNat

/-- The Python default for `max_retries`. -/
def defaultMaxRetries : Int := 5

/-- The Python default for `delay`. -/
def defaultDelay : Int := 2

/-- The per-entry loop of `update_bib_file`, embedded over an abstract query
function `q` (the value `search_dblp_entry(title, original_key)` returns for
the given title and key) and the external parser `l` standing for
`bibtexparser.loads`, which the source calls with no surrounding `try`, so a
parser exception propagates out of the loop — hence the `Except` result.
Returns the `updated_entries` list, the `failed_keys` list, and the trace of
the loop's own log/sleep events (the query function's internal events are
accounted for by `search_dblp_entry` separately). -/
def update_entries (q : String → String → Option String)
    (l : String → Except String (List BibEntry)) :
    List BibEntry → Except String (List BibEntry × List String × List LogEvent)
  | [] => .ok ([], [], [])
  | entry :: rest =>
    if entryValid entry then
      -- log "Searching DBLP for key ..., title ..."; new_bibtex = search_dblp_entry(...)
      match q (titleOf entry) (keyOf entry) with
      | some nb =>
        if nb == "" then
          -- `if new_bibtex:` is false on the empty string: keep original, record failure
          (update_entries q l rest).map (fun x =>
            (entry :: x.1, keyOf entry :: x.2.1,
             LogEvent.infoSearching (keyOf entry) (titleOf entry) ::
               LogEvent.infoKeepingOriginal (keyOf entry) (titleOf entry) ::
               LogEvent.sleepEntry :: x.2.2))
        else
          -- new_db = bibtexparser.loads(new_bibtex)   (not guarded by any try)
          match l nb with
          | .error err => .error err
          | .ok [] =>
            -- `new_db.entries` empty: warn, keep original, record failure
            (update_entries q l rest).map (fun x =>
              (entry :: x.1, keyOf entry :: x.2.1,
               LogEvent.infoSearching (keyOf entry) (titleOf entry) ::
                 LogEvent.warningNoParsed (keyOf entry) (titleOf entry) ::
                 LogEvent.sleepEntry :: x.2.2))
          | .ok (ne :: _) =>
            -- take first parsed entry, overwrite its ID with the original key
            (update_entries q l rest).map (fun x =>
              (setField ne "ID" (keyOf entry) :: x.1, x.2.1,
               LogEvent.infoSearching (keyOf entry) (titleOf entry) ::
                 LogEvent.sleepEntry :: x.2.2))
      | none =>
        -- `if new_bibtex:` is false on None: keep original, record failure
        (update_entries q l rest).map (fun x =>
          (entry :: x.1, keyOf entry :: x.2.1,
           LogEvent.infoSearching (keyOf entry) (titleOf entry) ::
             LogEvent.infoKeepingOriginal (keyOf entry) (titleOf entry) ::
             LogEvent.sleepEntry :: x.2.2))
    else
      -- `if not title or not original_key: continue`
      update_entries q l rest

/-- The three terminal ways one valid entry can come out of the merge policy. -/
inductive Outcome where
  /-- The raw record parsed to at least one entry; its first entry replaces
  the source entry. -/
  | replaced (ne : BibEntry)
  /-- The query returned `None` (or an empty raw record, which Python
  truthiness folds into the same branch): the original is kept. -/
  | keptNone
  /-- The raw record parsed to zero entries: the original is kept. -/
  | keptUnparsed
deriving DecidableEq, Repr

/-- The merge-policy decision for one valid entry, or the parser exception it
propagates. -/
def outcomeOf (q : String → String → Option String)
    (l : String → Except String (List BibEntry)) (e : BibEntry) :
    Except String Outcome :=
  match q (titleOf e) (keyOf e) with
  | some nb =>
    if nb == "" then .ok .keptNone
    else
      match l nb with
      | .error err => .error err
      | .ok [] => .ok .keptUnparsed
      | .ok (ne :: _) => .ok (.replaced ne)
  | none => .ok .keptNone

/-- The output entry an outcome contributes for source entry `e`. -/
def outEntry (e : BibEntry) : Outcome → BibEntry
  | .replaced ne => setField ne "ID" (keyOf e)
  | .keptNone => e
  | .keptUnparsed => e

/-- The failed-key contribution of an outcome for source entry `e`. -/
def outFailed (e : BibEntry) : Outcome → List String
  | .replaced _ => []
  | .keptNone => [keyOf e]
  | .keptUnparsed => [keyOf e]

/-- The log/sleep trace one valid entry contributes under an outcome. -/
def outLog (e : BibEntry) : Outcome → List LogEvent
  | .replaced _ => [.infoSearching (keyOf e) (titleOf e), .sleepEntry]
  | .keptNone => [.infoSearching (keyOf e) (titleOf e),
      .infoKeepingOriginal (keyOf e) (titleOf e), .sleepEntry]
  | .keptUnparsed => [.infoSearching (keyOf e) (titleOf e),
      .warningNoParsed (keyOf e) (titleOf e), .sleepEntry]

/-- Whether the merge policy keeps the original entry `e` (as opposed to
replacing it); on a parser exception the run aborts, so the value there is
immaterial and chosen as `false`. -/
def keptOriginal (q : String → String → Option String)
    (l : String → Except String (List BibEntry)) (e : BibEntry) : Bool :=
  match outcomeOf q l e with
  | .ok (.replaced _) => false
  | .ok .keptNone => true
  | .ok .keptUnparsed => true
  | .error _ => false

/-- The per-valid-entry outcomes of a run, in source order. -/
def outcomesAll (q : String → String → Option String)
    (l : String → Except String (List BibEntry)) :
    List BibEntry → Except String (List (BibEntry × Outcome))
  | [] => .ok []
  | e :: rest =>
    if entryValid e then
      match outcomeOf q l e with
      | .error err => .error err
      | .ok oc => (outcomesAll q l rest).map (fun ps => (e, oc) :: ps)
    else
      outcomesAll q l rest

/-- Assemble the update loop's three accumulators from a list of per-entry
outcomes. -/
def collectOutcomes : List (BibEntry × Outcome) →
    List BibEntry × List String × List LogEvent
  | [] => ([], [], [])
  | (e, oc) :: ps =>
    let r := collectOutcomes ps
    (outEntry e oc :: r.1, outFailed e oc ++ r.2.1, outLog e oc ++ r.2.2)

/-- The output entry produced for one valid entry, or the propagated parser
exception. -/
def processOne (q : String → String → Option String)
    (l : String → Except String (List BibEntry)) (e : BibEntry) :
    Except String BibEntry :=
  (outcomeOf q l e).map (outEntry e)

/-- Process a list of entries independently, propagating the first parser
exception. -/
def processAll (q : String → String → Option String)
    (l : String → Except String (List BibEntry)) :
    List BibEntry → Except String (List BibEntry)
  | [] => .ok []
  | e :: rest =>
    match processOne q l e with
    | .error err => .error err
    | .ok b => (processAll q l rest).map (fun bs => b :: bs)

/-- `true` exactly when the run completed rather than propagating an
exception. -/
def runCompletes {α : Type} : Except String α → Bool
  | .ok _ => true
  | .error _ => false

/-- The log trace the retry loop emits when every search request answers a
non-200 status, starting at 0-indexed `attempt` with `fuel` iterations left:
each attempt logs a warning carrying its 1-indexed number, followed by the
retry delay, and exhaustion logs the final error. -/
def retryFailLog (key title : String) (delay max_retries : Int) :
    Nat → Nat → List LogEvent
  | _, 0 => [.errorAllFailed max_retries key title]
  | attempt, fuel + 1 =>
    .warningSearchFail (attempt + 1) key title :: .sleepRetry delay ::
      retryFailLog key title delay max_retries (attempt + 1) fuel

/-- A minimal concrete source entry used in concrete instantiations:
citation key `k`, title `t`. -/
def exEntry : BibEntry := [("ID", "k"), ("title", "t")]

/-! ### Supporting lemmas -/

theorem searchGo_allFail (client : Nat → AttemptOutcome) (key title : String)
    (max_retries delay : Int) (hc : ∀ i, client i = AttemptOutcome.httpFail) :
    ∀ fuel attempt, searchGo client key title max_retries delay attempt fuel =
      ⟨none, retryFailLog key title delay max_retries attempt fuel, fuel⟩ := by
  intro fuel
  induction fuel with
  | zero => intro attempt; rfl
  | succ n ih =>
    intro attempt
    simp only [searchGo, hc attempt, retryFailLog, ih (attempt + 1)]

theorem outcomeOf_total (q : String → String → Option String)
    (l : String → Except String (List BibEntry))
    (hl : ∀ s, runCompletes (l s) = true) (e : BibEntry) :
    ∃ oc, outcomeOf q l e = .ok oc := by
  unfold outcomeOf
  cases hq : q (titleOf e) (keyOf e) with
  | none => exact ⟨.keptNone, rfl⟩
  | some nb =>
    by_cases hnb : (nb == "") = true
    · exact ⟨.keptNone, by simp [hnb]⟩
    · cases hlnb : l nb with
      | error err =>
        have := hl nb
        rw [hlnb] at this
        simp [runCompletes] at this
      | ok parsed =>
        cases parsed with
        | nil => exact ⟨.keptUnparsed, by simp [hnb, hlnb]⟩
        | cons ne tl => exact ⟨.replaced ne, by simp [hnb, hlnb]⟩

theorem outcomesAll_total (q : String → String → Option String)
    (l : String → Except String (List BibEntry))
    (hl : ∀ s, runCompletes (l s) = true) :
    ∀ es, ∃ ps, outcomesAll q l es = .ok ps := by
  intro es
  induction es with
  | nil => exact ⟨[], rfl⟩
  | cons e rest ih =>
    obtain ⟨ps, hps⟩ := ih
    rw [outcomesAll]
    by_cases hv : entryValid e = true
    · rw [if_pos hv]
      obtain ⟨oc, hoc⟩ := outcomeOf_total q l hl e
      exact ⟨(e, oc) :: ps, by rw [hoc, hps]; rfl⟩
    · rw [if_neg hv]
      exact ⟨ps, hps⟩

theorem collect_noop_fst : ∀ valid : List BibEntry,
    (collectOutcomes (valid.map (fun e => (e, Outcome.keptNone)))).1 = valid
  | [] => rfl
  | e :: valid => by simp [collectOutcomes, outEntry, collect_noop_fst valid]

theorem collect_noop_failed : ∀ valid : List BibEntry,
    (collectOutcomes (valid.map (fun e => (e, Outcome.keptNone)))).2.1 =
      valid.map keyOf
  | [] => rfl
  | e :: valid => by simp [collectOutcomes, outFailed, collect_noop_failed valid]

theorem setField_cons_of_ne (p : String × String) (e : BibEntry) (k v : String)
    (h : (p.1 == k) = false) : setField (p :: e) k v = p :: setField e k v := by
  unfold setField
  simp only [List.any_cons, h, Bool.false_or, List.map_cons, List.cons_append]
  split <;> simp [h]

theorem getField_setField (e : BibEntry) (k v : String) :
    getField (setField e k v) k = some v := by
  induction e with
  | nil => simp [getField, setField]
  | cons p e ih =>
    by_cases h : (p.1 == k) = true
    · have hany : (p :: e).any (fun x => x.1 == k) = true := by
        simp [List.any_cons, h]
      have hmap : (p :: e).map (fun x => if x.1 == k then (k, v) else x) =
          (k, v) :: e.map (fun x => if x.1 == k then (k, v) else x) := by
        simp only [List.map_cons]
        rw [if_pos h]
      unfold setField
      rw [if_pos hany, hmap]
      simp [getField, List.find?]
    · rw [setField_cons_of_ne p e k v (by simpa using h)]
      simp only [getField, List.find?]
      rw [show (p.1 == k) = false by simpa using h]
      exact ih

theorem valid_getField_ID (e : BibEntry) (hv : entryValid e = true) :
    getField e "ID" = some (keyOf e) := by
  unfold entryValid at hv
  cases h : getField e "ID" with
  | none => rw [h] at hv; simp at hv
  | some s => simp [keyOf, h]

theorem outEntry_key (e : BibEntry) (oc : Outcome) (hv : entryValid e = true) :
    getField (outEntry e oc) "ID" = getField e "ID" := by
  cases oc with
  | replaced ne =>
    rw [valid_getField_ID e hv]
    simp [outEntry, getField_setField]
  | keptNone => rfl
  | keptUnparsed => rfl

/-- Master characterization: the update loop is the per-valid-entry outcome
list assembled by `collectOutcomes`. -/
theorem update_entries_char (q : String → String → Option String)
    (l : String → Except String (List BibEntry)) (es : List BibEntry) :
    update_entries q l es = (outcomesAll q l es).map collectOutcomes := by
  induction es with
  | nil => rfl
  | cons e rest ih =>
    by_cases hv : entryValid e = true
    · rw [update_entries, outcomesAll, if_pos hv, if_pos hv]
      cases hq : q (titleOf e) (keyOf e) with
      | none =>
        cases hrec : outcomesAll q l rest with
        | error err =>
          rw [hrec] at ih
          simp [outcomeOf, hq, ih, hrec, Except.map]
        | ok ps =>
          rw [hrec] at ih
          simp [outcomeOf, hq, ih, hrec, Except.map, collectOutcomes,
            outEntry, outFailed, outLog]
      | some nb =>
        by_cases hnb : (nb == "") = true
        · cases hrec : outcomesAll q l rest with
          | error err =>
            rw [hrec] at ih
            simp [outcomeOf, hq, hnb, ih, hrec, Except.map]
          | ok ps =>
            rw [hrec] at ih
            simp [outcomeOf, hq, hnb, ih, hrec, Except.map, collectOutcomes,
              outEntry, outFailed, outLog]
        · cases hl : l nb with
          | error err =>
            simp [outcomeOf, hq, hnb, hl, Except.map]
          | ok parsed =>
            cases parsed with
            | nil =>
              cases hrec : outcomesAll q l rest with
              | error err =>
                rw [hrec] at ih
                simp [outcomeOf, hq, hnb, hl, ih, hrec, Except.map]
              | ok ps =>
                rw [hrec] at ih
                simp [outcomeOf, hq, hnb, hl, ih, hrec, Except.map,
                  collectOutcomes, outEntry, outFailed, outLog]
            | cons ne tl =>
              cases hrec : outcomesAll q l rest with
              | error err =>
                rw [hrec] at ih
                simp [outcomeOf, hq, hnb, hl, ih, hrec, Except.map]
              | ok ps =>
                rw [hrec] at ih
                simp [outcomeOf, hq, hnb, hl, ih, hrec, Except.map,
                  collectOutcomes, outEntry, outFailed, outLog]
    · rw [update_entries, outcomesAll, if_neg hv, if_neg hv]
      exact ih

/-- A successful run's outcome list carries exactly the valid entries in
source order, each with its merge-policy outcome. -/
theorem outcomesAll_ok (q : String → String → Option String)
    (l : String → Except String (List BibEntry)) :
    ∀ es ps, outcomesAll q l es = .ok ps →
      ps.map Prod.fst = es.filter entryValid ∧
      ∀ p ∈ ps, outcomeOf q l p.1 = .ok p.2 := by
  intro es
  induction es with
  | nil =>
    intro ps h
    rw [outcomesAll] at h
    cases h
    simp
  | cons e rest ih =>
    intro ps h
    rw [outcomesAll] at h
    by_cases hv : entryValid e = true
    · rw [if_pos hv] at h
      cases hoc : outcomeOf q l e with
      | error err => rw [hoc] at h; cases h
      | ok oc =>
        rw [hoc] at h
        cases hrec : outcomesAll q l rest with
        | error err => rw [hrec] at h; cases h
        | ok ps' =>
          rw [hrec] at h
          cases h
          obtain ⟨h1, h2⟩ := ih ps' hrec
          refine ⟨by simp [List.filter_cons, hv, h1], ?_⟩
          intro p hp
          rcases List.mem_cons.mp hp with rfl | hp'
          · exact hoc
          · exact h2 p hp'
    · rw [if_neg hv] at h
      obtain ⟨h1, h2⟩ := ih ps h
      exact ⟨by simp [List.filter_cons, hv, h1], h2⟩

theorem collect_fst (ps : List (BibEntry × Outcome)) :
    (collectOutcomes ps).1 = ps.map (fun p => outEntry p.1 p.2) := by
  induction ps with
  | nil => rfl
  | cons p ps ih => cases p; simp [collectOutcomes, ih]

theorem collect_failed (q : String → String → Option String)
    (l : String → Except String (List BibEntry)) :
    ∀ ps : List (BibEntry × Outcome),
      (∀ p ∈ ps, outcomeOf q l p.1 = .ok p.2) →
      (collectOutcomes ps).2.1 =
        ((ps.map Prod.fst).filter (keptOriginal q l)).map keyOf := by
  intro ps
  induction ps with
  | nil => intro _; rfl
  | cons p ps ih =>
    intro hoc
    obtain ⟨e, oc⟩ := p
    have he : outcomeOf q l e = .ok oc := hoc (e, oc) (List.mem_cons_self _ _)
    have hrest := ih (fun p hp => hoc p (List.mem_cons_of_mem _ hp))
    cases oc with
    | replaced ne =>
      have hk : keptOriginal q l e = false := by simp [keptOriginal, he]
      simp [collectOutcomes, outFailed, hrest, List.filter_cons, hk]
    | keptNone =>
      have hk : keptOriginal q l e = true := by simp [keptOriginal, he]
      simp [collectOutcomes, outFailed, hrest, List.filter_cons, hk]
    | keptUnparsed =>
      have hk : keptOriginal q l e = true := by simp [keptOriginal, he]
      simp [collectOutcomes, outFailed, hrest, List.filter_cons, hk]

/-- `processAll` over the valid entries reproduces a successful run's output
list entrywise. -/
theorem processAll_outcomes (q : String → String → Option String)
    (l : String → Except String (List BibEntry)) :
    ∀ es ps, outcomesAll q l es = .ok ps →
      processAll q l (es.filter entryValid) =
        .ok (ps.map (fun p => outEntry p.1 p.2)) := by
  intro es
  induction es with
  | nil =>
    intro ps h
    rw [outcomesAll] at h
    cases h
    rfl
  | cons e rest ih =>
    intro ps h
    rw [outcomesAll] at h
    by_cases hv : entryValid e = true
    · rw [if_pos hv] at h
      cases hoc : outcomeOf q l e with
      | error err => rw [hoc] at h; cases h
      | ok oc =>
        rw [hoc] at h
        cases hrec : outcomesAll q l rest with
        | error err => rw [hrec] at h; cases h
        | ok ps' =>
          rw [hrec] at h
          cases h
          simp [List.filter_cons, hv, processAll, processOne, hoc, Except.map,
            ih ps' hrec]
    · rw [if_neg hv] at h
      simpa [List.filter_cons, hv] using ih ps h

/-- When the query always answers `None`, every valid entry's outcome is
`keptNone`. -/
theorem outcomesAll_noop (q : String → String → Option String)
    (l : String → Except String (List BibEntry)) (hq : ∀ t k, q t k = none) :
    ∀ es, outcomesAll q l es =
      .ok ((es.filter entryValid).map (fun e => (e, Outcome.keptNone))) := by
  intro es
  induction es with
  | nil => rfl
  | cons e rest ih =>
    rw [outcomesAll]
    by_cases hv : entryValid e = true
    · rw [if_pos hv]
      simp [outcomeOf, hq, ih, Except.map, List.filter_cons, hv]
    · rw [if_neg hv]
      simp [List.filter_cons, hv, ih]

theorem filter_valid_idem (es : List BibEntry) :
    (es.filter entryValid).filter entryValid = es.filter entryValid := by
  apply List.filter_eq_self.mpr
  intro a ha
  exact List.of_mem_filter ha

/-! ### Claims about the query function `search_dblp_entry` -/

/-- C5 — Retry bound: if every search request yields a non-success (non-200)
HTTP status, `search_dblp_entry` makes exactly `max_retries` attempts, each
logged as a warning and followed by a delay, and then returns `None` after
logging a final error. -/
theorem retry_bound (client : Nat → AttemptOutcome) (title key : String)
    (max_retries delay : Int)
    (hc : ∀ i, client i = AttemptOutcome.httpFail) (hm : 0 ≤ max_retries) :
    search_dblp_entry client title key max_retries delay =
      ⟨none, retryFailLog key title delay max_retries 0 max_retries.toNat,
        max_retries.toNat⟩ ∧
    (max_retries.toNat : Int) = max_retries := by
  refine ⟨?_, by omega⟩
  exact searchGo_allFail client key title max_retries delay hc max_retries.toNat 0

theorem retry_bound_witness :
    (search_dblp_entry (fun _ => AttemptOutcome.httpFail) "t" "k" 2 2 =
      ⟨none, retryFailLog "k" "t" 2 2 0 (Int.toNat 2), Int.toNat 2⟩ ∧
    ((Int.toNat 2 : Nat) : Int) = 2) :=
  retry_bound (fun _ => AttemptOutcome.httpFail) "t" "k" 2 2 (fun _ => rfl)
    (by decide)

/-- C6 — Zero-hit short-circuit: if the first search request succeeds with
HTTP 200 but returns zero hits, the query function makes exactly one attempt,
returns `None` immediately without retrying or sleeping, and logs the absence
at info severity. -/
theorem zero_hit_short_circuit (client : Nat → AttemptOutcome)
    (title key : String) (max_retries delay : Int)
    (h0 : client 0 = AttemptOutcome.noHits) (hm : 0 < max_retries) :
    search_dblp_entry client title key max_retries delay =
      ⟨none, [LogEvent.infoNoResults key title], 1⟩ := by
  obtain ⟨n, hn⟩ : ∃ n, max_retries.toNat = n + 1 :=
    ⟨max_retries.toNat - 1, by omega⟩
  unfold search_dblp_entry
  rw [hn]
  simp only [searchGo, h0]

theorem zero_hit_short_circuit_witness :
    search_dblp_entry (fun _ => AttemptOutcome.noHits) "t" "k" 5 2 =
      ⟨none, [LogEvent.infoNoResults "k" "t"], 1⟩ :=
  zero_hit_short_circuit (fun _ => AttemptOutcome.noHits) "t" "k" 5 2 rfl
    (by decide)

/-- C10 — Zero-retry edge case: called with `max_retries ≤ 0`, the retry loop
body never executes (no search request is issued, `attempts = 0`) and the
function logs the final all-attempts-failed error and returns `None`. -/
theorem zero_retries_no_request (client : Nat → AttemptOutcome)
    (title key : String) (max_retries delay : Int) (hm : max_retries ≤ 0) :
    search_dblp_entry client title key max_retries delay =
      ⟨none, [LogEvent.errorAllFailed max_retries key title], 0⟩ := by
  have hn : max_retries.toNat = 0 := by omega
  unfold search_dblp_entry
  rw [hn]
  rfl

theorem zero_retries_no_request_witness :
    search_dblp_entry (fun _ => AttemptOutcome.httpFail) "t" "k" (-1) 2 =
      ⟨none, [LogEvent.errorAllFailed (-1) "k" "t"], 0⟩ :=
  zero_retries_no_request (fun _ => AttemptOutcome.httpFail) "t" "k" (-1) 2
    (by decide)

/-! ### Claims about the update loop -/

/-- C1 — Key stability: for every source entry that is processed (non-empty
brace-stripped title and a citation key), the corresponding output entry's
`ID` field equals that source entry's original citation key, both when the
entry is replaced by a fetched record and when the original is kept. -/
theorem key_stability (q : String → String → Option String)
    (l : String → Except String (List BibEntry)) (es out : List BibEntry)
    (fs : List String) (lg : List LogEvent)
    (h : update_entries q l es = Except.ok (out, fs, lg)) (i : Nat) :
    (out.get? i).map (fun e => getField e "ID") =
      ((es.filter entryValid).get? i).map (fun e => getField e "ID") := by
  rw [update_entries_char] at h
  cases hoc : outcomesAll q l es with
  | error err => rw [hoc] at h; cases h
  | ok ps =>
    rw [hoc] at h
    have h' : collectOutcomes ps = (out, fs, lg) := by
      simpa [Except.map] using h
    obtain ⟨hfst, hmem⟩ := outcomesAll_ok q l es ps hoc
    have hout : out = ps.map (fun p => outEntry p.1 p.2) := by
      rw [← collect_fst, h']
    rw [hout, ← hfst, List.get?_eq_getElem?, List.get?_eq_getElem?,
      List.getElem?_map, List.getElem?_map]
    cases hp : ps[i]? with
    | none => rfl
    | some p =>
      have hpm : p ∈ ps := List.get?_mem (by rw [List.get?_eq_getElem?, hp])
      have hv : entryValid p.1 = true := by
        have hmf : p.1 ∈ ps.map Prod.fst := List.mem_map_of_mem Prod.fst hpm
        rw [hfst] at hmf
        exact List.of_mem_filter hmf
      simp [outEntry_key p.1 p.2 hv]

theorem key_stability_witness :
    (([exEntry] : List BibEntry).get? 0).map (fun e => getField e "ID") =
      ((([exEntry] : List BibEntry).filter entryValid).get? 0).map
        (fun e => getField e "ID") :=
  key_stability (fun _ _ => none) (fun _ => Except.ok []) [exEntry] [exEntry]
    ["k"] [LogEvent.infoSearching "k" "t", LogEvent.infoKeepingOriginal "k" "t",
      LogEvent.sleepEntry] rfl 0

/-- C2 — Order preservation: for every input sequence, a completed run's
output has exactly one entry per input entry with a non-empty brace-stripped
title and a citation key — never fewer — and the output entries arise from
those source entries one to one, in the same relative order (`processAll`
maps each valid source entry, in order, to its output entry). -/
theorem order_preservation (q : String → String → Option String)
    (l : String → Except String (List BibEntry)) (es out : List BibEntry)
    (fs : List String) (lg : List LogEvent)
    (h : update_entries q l es = Except.ok (out, fs, lg)) :
    out.length = (es.filter entryValid).length ∧
    processAll q l (es.filter entryValid) = Except.ok out := by
  rw [update_entries_char] at h
  cases hoc : outcomesAll q l es with
  | error err => rw [hoc] at h; cases h
  | ok ps =>
    rw [hoc] at h
    have h' : collectOutcomes ps = (out, fs, lg) := by
      simpa [Except.map] using h
    obtain ⟨hfst, _⟩ := outcomesAll_ok q l es ps hoc
    have hout : out = ps.map (fun p => outEntry p.1 p.2) := by
      rw [← collect_fst, h']
    constructor
    · rw [hout, ← hfst]
      simp
    · rw [hout]
      exact processAll_outcomes q l es ps hoc

theorem order_preservation_witness :
    ([exEntry] : List BibEntry).length =
      (([exEntry, [("title", "t2")]] : List BibEntry).filter entryValid).length ∧
    processAll (fun _ _ => some "r")
        (fun _ => Except.ok [[("ID", "x"), ("title", "t")]])
        (([exEntry, [("title", "t2")]] : List BibEntry).filter entryValid) =
      Except.ok [exEntry] :=
  order_preservation (fun _ _ => some "r")
    (fun _ => Except.ok [[("ID", "x"), ("title", "t")]])
    [exEntry, [("title", "t2")]] [exEntry] []
    [LogEvent.infoSearching "k" "t", LogEvent.sleepEntry] rfl

/-- C3 counterexample — the claimed equivalence "key in failure list iff the
output entry is byte-identical to the source entry" fails when the fetched
record, after the key overwrite, coincides byte-for-byte with the source
entry: the run below replaces the single entry (so its key `k` is not in the
failure list), yet the output entry equals the source entry. -/
theorem failure_list_byte_identity_cex :
    update_entries (fun _ _ => some "r")
        (fun _ => Except.ok [[("ID", "x"), ("title", "t")]]) [exEntry] =
      Except.ok ([exEntry], [],
        [LogEvent.infoSearching "k" "t", LogEvent.sleepEntry]) ∧
    ¬ (keyOf exEntry ∈ ([] : List String) ↔
        ([exEntry] : List BibEntry).get? 0 = some exEntry) := by
  exact ⟨rfl, by decide⟩

/-- C3 amended — Failure list soundness: for a completed run, an entry's key
appears in the failure list iff the entry was kept as the original rather
than replaced by a fetched record (the failure list is exactly the keys of
the kept valid entries, in order); every kept entry's output is byte-identical
to its source entry.  (A replaced entry's key is absent from the list even if
the fetched record happens to coincide byte-for-byte with the source.) -/
theorem failure_list_soundness_amended (q : String → String → Option String)
    (l : String → Except String (List BibEntry)) (es out : List BibEntry)
    (fs : List String) (lg : List LogEvent)
    (h : update_entries q l es = Except.ok (out, fs, lg))
    (i : Nat) (e : BibEntry) :
    fs = ((es.filter entryValid).filter (keptOriginal q l)).map keyOf ∧
    ((es.filter entryValid).get? i = some e → keptOriginal q l e = true →
      out.get? i = some e) := by
  rw [update_entries_char] at h
  cases hoc : outcomesAll q l es with
  | error err => rw [hoc] at h; cases h
  | ok ps =>
    rw [hoc] at h
    have h' : collectOutcomes ps = (out, fs, lg) := by
      simpa [Except.map] using h
    obtain ⟨hfst, hmem⟩ := outcomesAll_ok q l es ps hoc
    have hout : out = ps.map (fun p => outEntry p.1 p.2) := by
      rw [← collect_fst, h']
    have hfs : fs = (collectOutcomes ps).2.1 := by rw [h']
    constructor
    · rw [hfs, collect_failed q l ps hmem, hfst]
    · intro he hk
      rw [← hfst, List.get?_eq_getElem?, List.getElem?_map] at he
      rw [hout, List.get?_eq_getElem?, List.getElem?_map]
      cases hp : ps[i]? with
      | none => rw [hp] at he; cases he
      | some p =>
        rw [hp] at he
        have hpm : p ∈ ps := List.get?_mem (by rw [List.get?_eq_getElem?, hp])
        have hoc' := hmem p hpm
        obtain ⟨e1, oc⟩ := p
        have hpe : e1 = e := by simpa using he
        subst hpe
        cases oc with
        | replaced ne =>
          exfalso
          rw [keptOriginal, hoc'] at hk
          simp at hk
        | keptNone => simp [outEntry]
        | keptUnparsed => simp [outEntry]

theorem failure_list_soundness_amended_witness :
    (["k"] : List String) =
      ((([exEntry] : List BibEntry).filter entryValid).filter
        (keptOriginal (fun _ _ => none) (fun _ => Except.ok []))).map keyOf ∧
    ((([exEntry] : List BibEntry).filter entryValid).get? 0 = some exEntry →
      keptOriginal (fun _ _ => none) (fun _ => Except.ok []) exEntry = true →
      ([exEntry] : List BibEntry).get? 0 = some exEntry) :=
  failure_list_soundness_amended (fun _ _ => none) (fun _ => Except.ok [])
    [exEntry] [exEntry] ["k"]
    [LogEvent.infoSearching "k" "t", LogEvent.infoKeepingOriginal "k" "t",
      LogEvent.sleepEntry] rfl 0 exEntry

/-- C4 counterexample — an exception raised while parsing the fetched raw
record is *not* contained: `bibtexparser.loads` is called outside the `try`
of the query function, so a parser exception aborts the whole run instead of
keeping the original entry and continuing.  Here a single-entry run whose
fetched record makes the parser raise ends as a propagated exception. -/
theorem parse_exception_aborts_cex :
    update_entries (fun _ _ => some "r") (fun _ => Except.error "exn")
        [exEntry] = Except.error "exn" ∧
    runCompletes (update_entries (fun _ _ => some "r")
        (fun _ => Except.error "exn") [exEntry]) = false := by
  exact ⟨rfl, rfl⟩

/-- C4 amended — Exception containment holds for the search-and-fetch phase
(the query function catches per-attempt exceptions internally and always
returns), but not for parsing the fetched raw record: that call sits outside
any `try`.  Provided the parser raises no exception, no failure mode of a
single entry aborts the run — the reconciler completes with one output entry
per valid source entry, keeping originals where needed. -/
theorem exception_containment_amended (q : String → String → Option String)
    (l : String → Except String (List BibEntry))
    (es : List BibEntry) (hl : ∀ s, runCompletes (l s) = true) :
    ∃ out fs lg, update_entries q l es = Except.ok (out, fs, lg) ∧
      out.length = (es.filter entryValid).length := by
  obtain ⟨ps, hps⟩ := outcomesAll_total q l hl es
  obtain ⟨hfst, _⟩ := outcomesAll_ok q l es ps hps
  refine ⟨(collectOutcomes ps).1, (collectOutcomes ps).2.1,
    (collectOutcomes ps).2.2, ?_, ?_⟩
  · rw [update_entries_char, hps]
    rfl
  · rw [collect_fst, ← hfst]
    simp

theorem exception_containment_amended_witness :
    ∃ out fs lg, update_entries (fun _ _ => some "r")
        (fun _ => Except.ok []) [exEntry] = Except.ok (out, fs, lg) ∧
      out.length = (([exEntry] : List BibEntry).filter entryValid).length :=
  exception_containment_amended (fun _ _ => some "r") (fun _ => Except.ok [])
    [exEntry] (fun _ => rfl)

/-- C7 — Silent skip of malformed source entries: an input entry whose
brace-stripped title is empty or whose citation key is missing or empty
contributes nothing to the run — removing all such entries from the input
leaves the entire result (output entries, failure keys, log trace, and even a
propagated exception) unchanged, so they appear in no output and no failure
is recorded and no error is raised for them. -/
theorem silent_skip (q : String → String → Option String)
    (l : String → Except String (List BibEntry)) (es : List BibEntry) :
    update_entries q l es = update_entries q l (es.filter entryValid) := by
  rw [update_entries_char, update_entries_char]
  congr 1
  induction es with
  | nil => rfl
  | cons e rest ih =>
    rw [List.filter_cons]
    by_cases hv : entryValid e = true
    · rw [if_pos hv]
      simp only [outcomesAll]
      rw [if_pos hv, if_pos hv, ih]
    · rw [if_neg hv]
      simp only [outcomesAll]
      rw [if_neg hv, ih]

/-- C8 — Idempotence on no-op: when the query client returns `None` for every
entry, the output sequence is exactly the input restricted to valid entries
(with every key in the failure list), and running the reconciliation again on
that output yields the identical output again. -/
theorem idempotence_noop (q : String → String → Option String)
    (l : String → Except String (List BibEntry)) (es : List BibEntry)
    (hq : ∀ t k, q t k = none) :
    (∃ lg, update_entries q l es =
      Except.ok (es.filter entryValid, (es.filter entryValid).map keyOf, lg)) ∧
    (∃ lg, update_entries q l (es.filter entryValid) =
      Except.ok (es.filter entryValid, (es.filter entryValid).map keyOf, lg)) := by
  have key : ∀ es' : List BibEntry, ∃ lg, update_entries q l es' =
      Except.ok (es'.filter entryValid, (es'.filter entryValid).map keyOf, lg) := by
    intro es'
    refine ⟨(collectOutcomes ((es'.filter entryValid).map
      (fun e => (e, Outcome.keptNone)))).2.2, ?_⟩
    rw [update_entries_char, outcomesAll_noop q l hq es']
    simp only [Except.map]
    have h1 := collect_noop_fst (es'.filter entryValid)
    have h2 := collect_noop_failed (es'.filter entryValid)
    congr 1
    exact Prod.ext h1 (Prod.ext h2 rfl)
  refine ⟨key es, ?_⟩
  obtain ⟨lg2, h2⟩ := key (es.filter entryValid)
  rw [filter_valid_idem] at h2
  exact ⟨lg2, h2⟩

theorem idempotence_noop_witness :
    (∃ lg, update_entries (fun _ _ => none) (fun _ => Except.ok []) [exEntry] =
      Except.ok (([exEntry] : List BibEntry).filter entryValid,
        (([exEntry] : List BibEntry).filter entryValid).map keyOf, lg)) ∧
    (∃ lg, update_entries (fun _ _ => none) (fun _ => Except.ok [])
        (([exEntry] : List BibEntry).filter entryValid) =
      Except.ok (([exEntry] : List BibEntry).filter entryValid,
        (([exEntry] : List BibEntry).filter entryValid).map keyOf, lg)) :=
  idempotence_noop (fun _ _ => none) (fun _ => Except.ok []) [exEntry]
    (fun _ _ => rfl)

/-- C9 — Empty raw record handling: if the query client returns the empty
string as the raw record for a valid entry, the reconciler treats it exactly
like no record at all — it keeps the original entry, logs the
keeping-original info message (not the parse-failure warning), appends the
key to the failure list, and continues with the rest. -/
theorem empty_raw_record (q : String → String → Option String)
    (l : String → Except String (List BibEntry)) (e : BibEntry)
    (rest : List BibEntry) (hv : entryValid e = true)
    (hq : q (titleOf e) (keyOf e) = some "") :
    update_entries q l (e :: rest) =
      (update_entries q l rest).map (fun x =>
        (e :: x.1, keyOf e :: x.2.1,
         LogEvent.infoSearching (keyOf e) (titleOf e) ::
           LogEvent.infoKeepingOriginal (keyOf e) (titleOf e) ::
           LogEvent.sleepEntry :: x.2.2)) := by
  simp only [update_entries]
  rw [if_pos hv, hq]
  simp

theorem empty_raw_record_witness :
    update_entries (fun _ _ => some "") (fun _ => Except.ok [])
        (exEntry :: []) =
      (update_entries (fun _ _ => some "") (fun _ => Except.ok []) []).map
        (fun x =>
          (exEntry :: x.1, keyOf exEntry :: x.2.1,
           LogEvent.infoSearching (keyOf exEntry) (titleOf exEntry) ::
             LogEvent.infoKeepingOriginal (keyOf exEntry) (titleOf exEntry) ::
             LogEvent.sleepEntry :: x.2.2)) :=
  empty_raw_record (fun _ _ => some "") (fun _ => Except.ok []) exEntry []
    (by decide) rfl

end Bib2Dblp
